import Mathlib

/-!
Shallow embedding of `decision/engine.go` (package `decision` of the nofx
repository): the response splitter, bracket-balanced extractor, payload
normalizer, decision decoder plumbing and the decision validator, together
with the liquidity filter of the context assembler.

Go strings are modelled as `List Char` (rune sequences); Go `float64`
values are modelled as exact rationals `ℚ`; Go `int` as `Int`.
-/

/-- Character used as an out-of-band default for `List.getD`. -/
def padChar : Char := Char.ofNat 0

/-- Go `unicode.IsSpace` on a rune (the set trimmed by `strings.TrimSpace`). -/
def isGoSpace (c : Char) : Bool :=
  c.toNat = 32 || c.toNat = 9 || c.toNat = 10 || c.toNat = 11 || c.toNat = 12 ||
  c.toNat = 13 || c.toNat = 133 || c.toNat = 160 || c.toNat = 0x1680 ||
  (0x2000 ≤ c.toNat && c.toNat ≤ 0x200A) || c.toNat = 0x2028 || c.toNat = 0x2029 ||
  c.toNat = 0x202F || c.toNat = 0x205F || c.toNat = 0x3000

/-- Go `strings.TrimSpace`: drop leading and trailing whitespace. -/
def trimSpace (s : List Char) : List Char :=
  ((s.dropWhile isGoSpace).reverse.dropWhile isGoSpace).reverse

/-- Go `strings.Index(response, "[")`: index of the first `[`, `-1` when absent. -/
def indexOfLBracket (response : List Char) : Int :=
  match List.findIdx? (fun c => c == '[') response with
  | some j => (j : Int)
  | none => -1

/-- `extractCoTTrace` from `decision/engine.go`: the chain-of-thought text is
whatever precedes the first `[` when that bracket sits at a positive index;
otherwise (no `[` at all, or `[` at index 0) the whole response, trimmed. -/
def extractCoTTrace (response : List Char) : List Char :=
  let jsonStart := indexOfLBracket response
  if 0 < jsonStart then trimSpace (response.take jsonStart.toNat)
  else trimSpace response

/-- Bracket weight of one character: `+1` for `[`, `-1` for `]`, `0` otherwise. -/
def bracketDelta (c : Char) : Int :=
  if c = '[' then 1 else if c = ']' then -1 else 0

/-- Net bracket depth accumulated over a character list. -/
def depthOver (l : List Char) : Int := (l.map bracketDelta).sum

/-- The scanning loop of `findMatchingBracket`: walk the remaining characters
with the current depth and absolute index, returning the absolute index of the
`]` at which the depth reaches zero, or `-1`. -/
def fmbLoop : List Char → Int → Nat → Int
  | [], _, _ => -1
  | c :: rest, depth, i =>
    if c = '[' then fmbLoop rest (depth + 1) (i + 1)
    else if c = ']' then
      if depth - 1 = 0 then (i : Int) else fmbLoop rest (depth - 1) (i + 1)
    else fmbLoop rest depth (i + 1)

/-- `findMatchingBracket` from `decision/engine.go`: requires `s[start] = '['`,
then scans forward keeping a depth counter (`+1` on `[`, `-1` on `]`) and
returns the index of the `]` where the depth first returns to zero, `-1` if it
never does. -/
def findMatchingBracket (s : List Char) (start : Nat) : Int :=
  if s.length ≤ start then -1
  else if s.getD start padChar = '[' then fmbLoop (s.drop start) 0 start
  else -1

/-- Specification-side return condition of the bracket scan: scanning the list
`l` with initial depth `d`, position `k` holds a `]` and the accumulated depth
through position `k` is zero. -/
def RetCond (l : List Char) (d : Int) (k : Nat) : Prop :=
  l.getD k padChar = ']' ∧ d + depthOver (l.take (k + 1)) = 0

instance (l : List Char) (d : Int) (k : Nat) : Decidable (RetCond l d k) := by
  unfold RetCond; infer_instance

/-- Go `strings.ReplaceAll` where the pattern and replacement are single runes. -/
def replaceAllChar (s : List Char) (a b : Char) : List Char :=
  s.map (fun c => if c = a then b else c)

/-- U+201C, the typographic opening double quote. -/
def leftDQ : Char := Char.ofNat 0x201C

/-- U+201D, the typographic closing double quote. -/
def rightDQ : Char := Char.ofNat 0x201D

/-- U+2018, the typographic opening single quote. -/
def leftSQ : Char := Char.ofNat 0x2018

/-- U+2019, the typographic closing single quote. -/
def rightSQ : Char := Char.ofNat 0x2019

/-- ASCII double quote U+0022. -/
def asciiDQ : Char := Char.ofNat 34

/-- ASCII apostrophe U+0027. -/
def asciiSQ : Char := Char.ofNat 39

/-- `fixMissingQuotes` from `decision/engine.go`: replace the four typographic
quote code points with their ASCII equivalents, leaving all else unchanged. -/
def fixMissingQuotes (jsonStr : List Char) : List Char :=
  replaceAllChar (replaceAllChar (replaceAllChar (replaceAllChar
    jsonStr leftDQ asciiDQ) rightDQ asciiDQ) leftSQ asciiSQ) rightSQ asciiSQ

/-- Specification-side single-character substitution table: the four
typographic quotes map to ASCII quotes, everything else is fixed. -/
def quoteSub (c : Char) : Char :=
  if c = leftDQ then asciiDQ else if c = rightDQ then asciiDQ
  else if c = leftSQ then asciiSQ else if c = rightSQ then asciiSQ else c

/-- The `Decision` struct of `decision/engine.go` (field names follow the Go
struct; `float64` fields become `ℚ`, pointer-optional fields become `Option`). -/
structure Decision where
  symbol : String
  action : String
  reasoning : String
  leverage : Int
  positionSizeUSD : ℚ
  stopLoss : ℚ
  takeProfitLevels : List ℚ
  trailingStopPct : Option ℚ
  checklistPassed : Option Int
  riskRewardRatio : Option ℚ
  signalType : String
  oiSignal : String
  oiAdjustment : String
  newStopLoss : Option ℚ
  closePercentage : Option Int
deriving Repr, DecidableEq

/-- The validation errors `validateDecision` can produce, one constructor per
`fmt.Errorf` site, carrying the offending values that the Go message formats. -/
inductive ValidationError where
  | invalidAction : String → ValidationError
  | leverageOut : Int → String → Int → ValidationError
  | positionSizeNonPos : ℚ → ValidationError
  | positionCap : Bool → ℚ → ℚ → ValidationError
  | stopLossNonPos : ValidationError
  | tpCount : Nat → ValidationError
  | tpNonPos : Nat → ℚ → ValidationError
  | orderingStopTp : Bool → ℚ → ℚ → ValidationError
  | orderingTp : Bool → ℚ → ℚ → ℚ → ValidationError
  | riskReward : ℚ → ℚ → ℚ → ℚ → ℚ → ValidationError
deriving Repr, DecidableEq

/-- The `validActions` set checked first by `validateDecision`. -/
def validActions (action : String) : Bool :=
  action == "open_long" || action == "open_short" || action == "close_long" ||
  action == "close_short" || action == "hold" || action == "wait"

/-- Whether the symbol gets the BTC/ETH leverage and notional limits. -/
def isBTCETHSymbol (symbol : String) : Bool :=
  symbol == "BTCUSDT" || symbol == "ETHUSDT"

/-- The `maxLeverage` local of `validateDecision`. -/
def maxLeverageFor (symbol : String) (btcEthLeverage altcoinLeverage : Int) : Int :=
  if isBTCETHSymbol symbol then btcEthLeverage else altcoinLeverage

/-- The `maxPositionValue` local of `validateDecision`: 10× equity for
BTC/ETH, 1.5× equity for altcoins. -/
def maxPositionValueFor (symbol : String) (accountEquity : ℚ) : ℚ :=
  if isBTCETHSymbol symbol then accountEquity * 10 else accountEquity * 1.5

/-- Take-profit level at position `i` (the Go code indexes the slice after the
length-3 check; out-of-range defaults to 0). -/
def tpAt (d : Decision) (i : Nat) : ℚ := d.takeProfitLevels.getD i 0

/-- The `for i, tp := range d.TakeProfitLevels` positivity loop: first
(0-based index, value) pair with a non-positive take-profit, if any. -/
def firstNonPosTP : List ℚ → Nat → Option (Nat × ℚ)
  | [], _ => none
  | tp :: rest, i => if tp ≤ 0 then some (i, tp) else firstNonPosTP rest (i + 1)

/-- The assumed `entryPrice` of the risk:reward computation: interpolated 20%
of the way from the stop toward the first take-profit target. -/
def entryPriceOf (d : Decision) : ℚ :=
  if d.action = "open_long" then d.stopLoss + (tpAt d 0 - d.stopLoss) * 0.2
  else d.stopLoss - (d.stopLoss - tpAt d 0) * 0.2

/-- The `riskPercent` local of the risk:reward computation. -/
def riskPercentOf (d : Decision) : ℚ :=
  if d.action = "open_long" then (entryPriceOf d - d.stopLoss) / entryPriceOf d * 100
  else (d.stopLoss - entryPriceOf d) / entryPriceOf d * 100

/-- The `rewardPercent` local of the risk:reward computation. -/
def rewardPercentOf (d : Decision) : ℚ :=
  if d.action = "open_long" then (tpAt d 0 - entryPriceOf d) / entryPriceOf d * 100
  else (entryPriceOf d - tpAt d 0) / entryPriceOf d * 100

/-- The `riskRewardRatio` local: `reward/risk` guarded by `riskPercent > 0`,
otherwise left at its zero initialisation. -/
def riskRewardRatioOf (d : Decision) : ℚ :=
  if 0 < riskPercentOf d then rewardPercentOf d / riskPercentOf d else 0

/-- The stop/take-profit ordering checks of `validateDecision`: strict
ascending chain for `open_long`, strict descending chain for the `else`
(`open_short`) branch. -/
def checkOrdering (d : Decision) : Except ValidationError Unit :=
  if d.action = "open_long" then
    if tpAt d 0 ≤ d.stopLoss then
      Except.error (ValidationError.orderingStopTp true d.stopLoss (tpAt d 0))
    else if tpAt d 1 ≤ tpAt d 0 ∨ tpAt d 2 ≤ tpAt d 1 then
      Except.error (ValidationError.orderingTp true (tpAt d 0) (tpAt d 1) (tpAt d 2))
    else Except.ok ()
  else
    if d.stopLoss ≤ tpAt d 0 then
      Except.error (ValidationError.orderingStopTp false d.stopLoss (tpAt d 0))
    else if tpAt d 0 ≤ tpAt d 1 ∨ tpAt d 1 ≤ tpAt d 2 then
      Except.error (ValidationError.orderingTp false (tpAt d 0) (tpAt d 1) (tpAt d 2))
    else Except.ok ()

/-- The final risk:reward gate of `validateDecision`: reject when the computed
ratio is below 2. -/
def checkRiskReward (d : Decision) : Except ValidationError Unit :=
  if riskRewardRatioOf d < 2 then
    Except.error (ValidationError.riskReward (riskRewardRatioOf d) (riskPercentOf d)
      (rewardPercentOf d) d.stopLoss (tpAt d 0))
  else Except.ok ()

/-- `validateDecision` from `decision/engine.go`: action-set check, then (for
open actions only) leverage bound, position-size positivity, notional cap with
1% tolerance, stop positivity, take-profit count and positivity, ordering, and
risk:reward threshold, failing fast with the first violated rule. -/
def validateDecision (d : Decision) (accountEquity : ℚ)
    (btcEthLeverage altcoinLeverage : Int) : Except ValidationError Unit :=
  if validActions d.action then
    if d.action = "open_long" ∨ d.action = "open_short" then
      if d.leverage ≤ 0 ∨ maxLeverageFor d.symbol btcEthLeverage altcoinLeverage < d.leverage then
        Except.error (ValidationError.leverageOut
          (maxLeverageFor d.symbol btcEthLeverage altcoinLeverage) d.symbol d.leverage)
      else if d.positionSizeUSD ≤ 0 then
        Except.error (ValidationError.positionSizeNonPos d.positionSizeUSD)
      else if maxPositionValueFor d.symbol accountEquity +
          maxPositionValueFor d.symbol accountEquity * 0.01 < d.positionSizeUSD then
        Except.error (ValidationError.positionCap (isBTCETHSymbol d.symbol)
          (maxPositionValueFor d.symbol accountEquity) d.positionSizeUSD)
      else if d.stopLoss ≤ 0 then
        Except.error ValidationError.stopLossNonPos
      else if d.takeProfitLevels.length ≠ 3 then
        Except.error (ValidationError.tpCount d.takeProfitLevels.length)
      else
        match firstNonPosTP d.takeProfitLevels 0 with
        | some itp => Except.error (ValidationError.tpNonPos (itp.1 + 1) itp.2)
        | none =>
          match checkOrdering d with
          | Except.error e => Except.error e
          | Except.ok _ => checkRiskReward d
    else Except.ok ()
  else Except.error (ValidationError.invalidAction d.action)

/-- The loop of `validateDecisions`, carrying the 0-based loop index so that
an invalid record is reported at its 1-based ordinal. -/
def validateDecisionsFrom (accountEquity : ℚ) (btcEthLeverage altcoinLeverage : Int) :
    Nat → List Decision → Except (Nat × ValidationError) Unit
  | _, [] => Except.ok ()
  | i, d :: rest =>
    match validateDecision d accountEquity btcEthLeverage altcoinLeverage with
    | Except.error e => Except.error (i + 1, e)
    | Except.ok _ => validateDecisionsFrom accountEquity btcEthLeverage altcoinLeverage (i + 1) rest

/-- `validateDecisions` from `decision/engine.go`: validate the batch in
order, aborting on the first invalid record with its 1-based position. -/
def validateDecisions (decisions : List Decision) (accountEquity : ℚ)
    (btcEthLeverage altcoinLeverage : Int) : Except (Nat × ValidationError) Unit :=
  validateDecisionsFrom accountEquity btcEthLeverage altcoinLeverage 0 decisions

/-- Extraction-stage failures of `extractDecisions`: missing array start,
missing matching array end, or a JSON decode failure (carrying the decoder
message and the exact normalized payload, as the Go error does). -/
inductive ExtractErr where
  | noArrayStart : ExtractErr
  | noArrayEnd : ExtractErr
  | jsonDecode : String → List Char → ExtractErr
deriving Repr, DecidableEq

/-- `extractDecisions` from `decision/engine.go`, parametrized by the JSON
decoder (`encoding/json.Unmarshal` is external library code): locate the first
`[`, find its matching `]` by depth counting, trim and normalize the slice,
then decode it. -/
def extractDecisions (decode : List Char → Except String (List Decision))
    (response : List Char) : Except ExtractErr (List Decision) :=
  let arrayStart := indexOfLBracket response
  if arrayStart = -1 then Except.error ExtractErr.noArrayStart
  else
    let arrayEnd := findMatchingBracket response arrayStart.toNat
    if arrayEnd = -1 then Except.error ExtractErr.noArrayEnd
    else
      let jsonContent :=
        fixMissingQuotes (trimSpace ((response.take (arrayEnd.toNat + 1)).drop arrayStart.toNat))
      match decode jsonContent with
      | Except.error msg => Except.error (ExtractErr.jsonDecode msg jsonContent)
      | Except.ok ds => Except.ok ds

/-- The `FullDecision` struct restricted to the fields `parseFullDecisionResponse`
fills itself (`UserPrompt` and `Timestamp` are set by the caller). -/
structure FullDecision where
  cotTrace : List Char
  decisions : List Decision
deriving Repr, DecidableEq

/-- A fatal failure of `parseFullDecisionResponse`; every constructor carries
the extracted chain-of-thought rationale, as the Go error message does. -/
inductive ParseFailure where
  | extractFail : ExtractErr → List Char → ParseFailure
  | validateFail : Nat → ValidationError → List Char → ParseFailure
deriving Repr, DecidableEq

/-- The rationale text attached to a fatal parse failure. -/
def ParseFailure.cot : ParseFailure → List Char
  | ParseFailure.extractFail _ t => t
  | ParseFailure.validateFail _ _ t => t

/-- `parseFullDecisionResponse` from `decision/engine.go`: extract the
chain-of-thought, extract and decode the decision array, validate it; on any
failure return an error bundling the rationale. -/
def parseFullDecisionResponse (decode : List Char → Except String (List Decision))
    (aiResponse : List Char) (accountEquity : ℚ)
    (btcEthLeverage altcoinLeverage : Int) : Except ParseFailure FullDecision :=
  let cotTrace := extractCoTTrace aiResponse
  match extractDecisions decode aiResponse with
  | Except.error e => Except.error (ParseFailure.extractFail e cotTrace)
  | Except.ok decisions =>
    match validateDecisions decisions accountEquity btcEthLeverage altcoinLeverage with
    | Except.error ie => Except.error (ParseFailure.validateFail ie.1 ie.2 cotTrace)
    | Except.ok _ => Except.ok { cotTrace := cotTrace, decisions := decisions }

/-- The open-interest slice of `market.Data` used by the liquidity filter. -/
structure OpenInterest where
  latest : ℚ
deriving Repr, DecidableEq

/-- The slice of `market.Data` consumed by `fetchMarketDataForContext`. -/
structure MarketData where
  currentPrice : ℚ
  openInterest : Option OpenInterest
deriving Repr, DecidableEq

/-- `calculateMaxCandidates` from `decision/engine.go`: the whole candidate
pool is analysed. -/
def calculateMaxCandidates (candidateCoins : List String) : Nat :=
  candidateCoins.length

/-- One iteration of the symbol loop of `fetchMarketDataForContext`: fetch the
symbol's market data (skip the symbol on failure) and apply the liquidity
filter — a non-position symbol with open-interest data, a positive price and a
notional open interest below 15M USD is skipped. -/
def liquidityStep (get : String → Option MarketData) (positionSymbols : List String)
    (symbol : String) : Option (String × MarketData) :=
  match get symbol with
  | none => none
  | some data =>
    match data.openInterest with
    | none => some (symbol, data)
    | some oi =>
      if positionSymbols.contains symbol = false ∧ 0 < data.currentPrice then
        if oi.latest * data.currentPrice / 1000000 < 15 then none
        else some (symbol, data)
      else some (symbol, data)

/-- The snapshot-map construction of `fetchMarketDataForContext`: the symbol
set is the union of position symbols and the first `calculateMaxCandidates`
candidates; each symbol is fetched and filtered by `liquidityStep`. -/
def fetchMarketDataForContext (get : String → Option MarketData)
    (positionSymbols candidateCoins : List String) : List (String × MarketData) :=
  ((positionSymbols ++ candidateCoins.take (calculateMaxCandidates candidateCoins)).dedup).filterMap
    (liquidityStep get positionSymbols)

/-! ## Helper lemmas -/

lemma quoteSub_comp (c : Char) :
    (if (if (if (if c = leftDQ then asciiDQ else c) = rightDQ then asciiDQ
      else if c = leftDQ then asciiDQ else c) = leftSQ then asciiSQ
      else if (if c = leftDQ then asciiDQ else c) = rightDQ then asciiDQ
      else if c = leftDQ then asciiDQ else c) = rightSQ then asciiSQ
      else if (if (if c = leftDQ then asciiDQ else c) = rightDQ then asciiDQ
      else if c = leftDQ then asciiDQ else c) = leftSQ then asciiSQ
      else if (if c = leftDQ then asciiDQ else c) = rightDQ then asciiDQ
      else if c = leftDQ then asciiDQ else c) = quoteSub c := by
  by_cases h1 : c = leftDQ
  · subst h1; decide
  by_cases h2 : c = rightDQ
  · subst h2; decide
  by_cases h3 : c = leftSQ
  · subst h3; decide
  by_cases h4 : c = rightSQ
  · subst h4; decide
  simp only [quoteSub, if_neg h1, if_neg h2, if_neg h3, if_neg h4]

lemma fixMissingQuotes_eq_map (s : List Char) :
    fixMissingQuotes s = s.map quoteSub := by
  induction s with
  | nil => rfl
  | cons c t ih =>
    simp only [fixMissingQuotes, replaceAllChar, List.map_cons] at *
    exact congrArg₂ List.cons (quoteSub_comp c) ih

lemma quoteSub_idem (c : Char) : quoteSub (quoteSub c) = quoteSub c := by
  by_cases h1 : c = leftDQ
  · subst h1; decide
  by_cases h2 : c = rightDQ
  · subst h2; decide
  by_cases h3 : c = leftSQ
  · subst h3; decide
  by_cases h4 : c = rightSQ
  · subst h4; decide
  simp only [quoteSub, if_neg h1, if_neg h2, if_neg h3, if_neg h4]

/-! ## C1: update_stop and partial_close are rejected as invalid actions -/

/-- C1: for every decision record whose action is `update_stop` or
`partial_close`, even with its schema-required fields present, `validateDecision`
rejects the record with the invalid-action error: the recognized-action set
contains only open_long, open_short, close_long, close_short, hold and wait. -/
theorem validateDecision_rejects_update_stop_partial_close
    (d : Decision) (accountEquity : ℚ) (bl al : Int)
    (h : d.action = "update_stop" ∨ d.action = "partial_close") :
    validateDecision d accountEquity bl al =
      Except.error (ValidationError.invalidAction d.action) := by
  unfold validateDecision
  rcases h with h | h <;> rw [h] <;> rfl

/-- A well-formed `update_stop` record (symbol and new stop price present). -/
def updateStopExample : Decision :=
  { symbol := "BTCUSDT", action := "update_stop", reasoning := "r", leverage := 0,
    positionSizeUSD := 0, stopLoss := 0, takeProfitLevels := [],
    trailingStopPct := none, checklistPassed := none, riskRewardRatio := none,
    signalType := "", oiSignal := "", oiAdjustment := "",
    newStopLoss := some 100, closePercentage := none }

/-- A well-formed `partial_close` record (symbol and close percentage present). -/
def partialCloseExample : Decision :=
  { symbol := "BTCUSDT", action := "partial_close", reasoning := "r", leverage := 0,
    positionSizeUSD := 0, stopLoss := 0, takeProfitLevels := [],
    trailingStopPct := none, checklistPassed := none, riskRewardRatio := none,
    signalType := "", oiSignal := "", oiAdjustment := "",
    newStopLoss := none, closePercentage := some 30 }

/-- Witness for C1 at two concrete records with their required fields present. -/
theorem validateDecision_rejects_update_stop_partial_close_witness :
    validateDecision updateStopExample 5000 5 5 =
      Except.error (ValidationError.invalidAction "update_stop") ∧
    validateDecision partialCloseExample 5000 5 5 =
      Except.error (ValidationError.invalidAction "partial_close") :=
  ⟨validateDecision_rejects_update_stop_partial_close updateStopExample 5000 5 5 (Or.inl rfl),
   validateDecision_rejects_update_stop_partial_close partialCloseExample 5000 5 5 (Or.inr rfl)⟩

/-! ## C7: the payload normalizer is an exact four-character substitution -/

/-- C7: `fixMissingQuotes` acts pointwise as the substitution `quoteSub`, which
maps U+201C and U+201D to ASCII `"` and U+2018 and U+2019 to ASCII `'` and
fixes every other character; consequently it is idempotent. -/
theorem fixMissingQuotes_subst_and_idem :
    (∀ s : List Char, fixMissingQuotes s = s.map quoteSub) ∧
    quoteSub leftDQ = asciiDQ ∧ quoteSub rightDQ = asciiDQ ∧
    quoteSub leftSQ = asciiSQ ∧ quoteSub rightSQ = asciiSQ ∧
    (∀ c : Char, c ≠ leftDQ → c ≠ rightDQ → c ≠ leftSQ → c ≠ rightSQ →
      quoteSub c = c) ∧
    (∀ s : List Char, fixMissingQuotes (fixMissingQuotes s) = fixMissingQuotes s) := by
  refine ⟨fixMissingQuotes_eq_map, by decide, by decide, by decide, by decide, ?_, ?_⟩
  · intro c h1 h2 h3 h4; simp [quoteSub, h1, h2, h3, h4]
  · intro s
    rw [fixMissingQuotes_eq_map, fixMissingQuotes_eq_map, List.map_map]
    exact List.map_congr_left fun c _ => quoteSub_idem c

/-- Witness for C7: a character outside the table is fixed, and normalizing an
already-normalized mixed string is a no-op. -/
theorem fixMissingQuotes_subst_and_idem_witness :
    quoteSub 'a' = 'a' ∧
    fixMissingQuotes (fixMissingQuotes [ leftDQ, 'a', rightSQ ]) =
      fixMissingQuotes [ leftDQ, 'a', rightSQ ] :=
  ⟨fixMissingQuotes_subst_and_idem.2.2.2.2.2.1 'a' (by decide) (by decide) (by decide) (by decide),
   fixMissingQuotes_subst_and_idem.2.2.2.2.2.2 [ leftDQ, 'a', rightSQ ]⟩

/-! ## C5: response splitter -/

lemma findIdx_lbracket_some (l : List Char) : ∀ (j : Nat), j < l.length →
    l.getD j padChar = '[' → (∀ c ∈ l.take j, c ≠ '[') →
    List.findIdx? (fun c => c == '[') l = some j := by
  induction l with
  | nil => intro j hj _ _; simp at hj
  | cons c t ih =>
    intro j hj hget hbefore
    cases j with
    | zero =>
      simp only [List.getD_cons_zero] at hget
      simp [List.findIdx?_cons, hget]
    | succ k =>
      have hc : c ≠ '[' := hbefore c (by simp [List.take_succ_cons])
      have hrec := ih k (by simpa using hj) (by simpa using hget)
        (fun x hx => hbefore x (by simp [List.take_succ_cons, hx]))
      simp [List.findIdx?_cons, hc, hrec]

lemma findIdx_lbracket_none (l : List Char) (h : ∀ c ∈ l, c ≠ '[') :
    List.findIdx? (fun c => c == '[') l = none := by
  induction l with
  | nil => rfl
  | cons c t ih =>
    have hc : c ≠ '[' := h c (by simp)
    simp [List.findIdx?_cons, hc, ih (fun x hx => h x (by simp [hx]))]

/-- C5 (amended): when the first `[` of the response occurs at a positive
index `j`, the rationale is the prefix before it, trimmed; when the response
has no `[` at all, or its first `[` is at index 0, the whole response is
returned trimmed — in particular a response beginning with `[` does NOT yield
an empty rationale. -/
theorem extractCoTTrace_spec :
    (∀ (response : List Char) (j : Nat), j < response.length →
      response.getD j padChar = '[' → (∀ c ∈ response.take j, c ≠ '[') →
      ((0 < j → extractCoTTrace response = trimSpace (response.take j)) ∧
       (j = 0 → extractCoTTrace response = trimSpace response))) ∧
    (∀ response : List Char, (∀ c ∈ response, c ≠ '[') →
      extractCoTTrace response = trimSpace response) := by
  constructor
  · intro response j hj hget hbefore
    have hfind := findIdx_lbracket_some response j hj hget hbefore
    have hidx : indexOfLBracket response = (j : Int) := by
      unfold indexOfLBracket; rw [hfind]
    constructor
    · intro hjpos
      unfold extractCoTTrace
      rw [hidx, if_pos (by exact_mod_cast hjpos), Int.toNat_natCast]
    · intro hj0
      subst hj0
      unfold extractCoTTrace
      rw [hidx]
      norm_num
  · intro response h
    have hidx : indexOfLBracket response = -1 := by
      unfold indexOfLBracket; rw [findIdx_lbracket_none response h]
    unfold extractCoTTrace
    rw [hidx]
    norm_num

/-- Counterexample to C5 as stated: a response that begins with `[` at index 0
yields the whole (trimmed) response as rationale, not the empty string. -/
theorem extractCoTTrace_zero_counterexample :
    extractCoTTrace [ '[', '1', ']' ] ≠ ([] : List Char) := by
  intro h
  exact List.cons_ne_nil '[' [ '1', ']' ] h

/-- Witness for C5 (amended): at a concrete response whose first `[` is at
index 1, the rationale is the trimmed one-character prefix. -/
theorem extractCoTTrace_spec_witness :
    extractCoTTrace [ 'a', ' ', '[', '1', ']' ] = trimSpace [ 'a', ' ' ] :=
  (extractCoTTrace_spec.1 [ 'a', ' ', '[', '1', ']' ] 2 (by decide) (by decide)
    (by decide)).1 (by decide)

/-! ## C6: bracket-balanced extractor -/

lemma retCond_zero (c : Char) (rest : List Char) (d : Int) :
    RetCond (c :: rest) d 0 ↔ (c = ']' ∧ d + bracketDelta c = 0) := by
  unfold RetCond depthOver
  simp [List.take_succ_cons, List.getD_cons_zero]

lemma retCond_succ (c : Char) (rest : List Char) (d : Int) (k : Nat) :
    RetCond (c :: rest) d (k + 1) ↔ RetCond rest (d + bracketDelta c) k := by
  unfold RetCond depthOver
  simp [List.take_succ_cons, List.getD_cons_succ, add_assoc]

lemma fmbLoop_spec (l : List Char) : ∀ (d : Int) (i : Nat),
    (fmbLoop l d i = -1 ∧ ∀ k, ¬ RetCond l d k) ∨
    (∃ k, fmbLoop l d i = ((i + k : Nat) : Int) ∧ RetCond l d k ∧
      ∀ m, m < k → ¬ RetCond l d m) := by
  induction l with
  | nil =>
    intro d i
    left
    refine ⟨rfl, fun k => ?_⟩
    unfold RetCond
    rintro ⟨hget, -⟩
    simp [List.getD] at hget
    exact absurd hget (by decide)
  | cons c rest ih =>
    intro d i
    by_cases hc : c = '['
    · have hdelta : bracketDelta c = 1 := by simp [bracketDelta, hc]
      have hstep : fmbLoop (c :: rest) d i = fmbLoop rest (d + 1) (i + 1) := by
        simp [fmbLoop, hc]
      have hhead : ¬ RetCond (c :: rest) d 0 := by
        rw [retCond_zero]
        rintro ⟨h1, -⟩
        rw [hc] at h1
        exact absurd h1 (by decide)
      rcases ih (d + 1) (i + 1) with ⟨h1, h2⟩ | ⟨k, h1, h2, h3⟩
      · left
        refine ⟨by rw [hstep, h1], fun k => ?_⟩
        cases k with
        | zero => exact hhead
        | succ k => rw [retCond_succ, hdelta]; exact h2 k
      · right
        refine ⟨k + 1, ?_, ?_, ?_⟩
        · rw [hstep, h1]; congr 1; omega
        · rw [retCond_succ, hdelta]; exact h2
        · intro m hm
          cases m with
          | zero => exact hhead
          | succ m => rw [retCond_succ, hdelta]; exact h3 m (by omega)
    · by_cases hc2 : c = ']'
      · have hdelta : bracketDelta c = -1 := by simp [bracketDelta, hc, hc2]
        have hsum : d + bracketDelta c = d - 1 := by rw [hdelta]; ring
        by_cases hd : d - 1 = 0
        · right
          refine ⟨0, ?_, ?_, fun m hm => absurd hm (by omega)⟩
          · show fmbLoop (c :: rest) d i = ((i + 0 : Nat) : Int)
            simp [fmbLoop, hc, hc2, hd]
          · rw [retCond_zero]
            exact ⟨hc2, by rw [hdelta]; omega⟩
        · have hstep : fmbLoop (c :: rest) d i = fmbLoop rest (d - 1) (i + 1) := by
            simp [fmbLoop, hc, hc2, hd]
          have hhead : ¬ RetCond (c :: rest) d 0 := by
            rw [retCond_zero]
            rintro ⟨-, h2⟩
            rw [hdelta] at h2
            omega
          rcases ih (d - 1) (i + 1) with ⟨h1, h2⟩ | ⟨k, h1, h2, h3⟩
          · left
            refine ⟨by rw [hstep, h1], fun k => ?_⟩
            cases k with
            | zero => exact hhead
            | succ k => rw [retCond_succ, hsum]; exact h2 k
          · right
            refine ⟨k + 1, ?_, ?_, ?_⟩
            · rw [hstep, h1]; congr 1; omega
            · rw [retCond_succ, hsum]; exact h2
            · intro m hm
              cases m with
              | zero => exact hhead
              | succ m => rw [retCond_succ, hsum]; exact h3 m (by omega)
      · have hdelta : bracketDelta c = 0 := by simp [bracketDelta, hc, hc2]
        have hsum : d + bracketDelta c = d := by rw [hdelta]; ring
        have hstep : fmbLoop (c :: rest) d i = fmbLoop rest d (i + 1) := by
          simp [fmbLoop, hc, hc2]
        have hhead : ¬ RetCond (c :: rest) d 0 := by
          rw [retCond_zero]
          rintro ⟨h1, -⟩
          exact hc2 h1
        rcases ih d (i + 1) with ⟨h1, h2⟩ | ⟨k, h1, h2, h3⟩
        · left
          refine ⟨by rw [hstep, h1], fun k => ?_⟩
          cases k with
          | zero => exact hhead
          | succ k => rw [retCond_succ, hsum]; exact h2 k
        · right
          refine ⟨k + 1, ?_, ?_, ?_⟩
          · rw [hstep, h1]; congr 1; omega
          · rw [retCond_succ, hsum]; exact h2
          · intro m hm
            cases m with
            | zero => exact hhead
            | succ m => rw [retCond_succ, hsum]; exact h3 m (by omega)

/-- The nested payload of the specification's own example. -/
def nestedPayload : List Char :=
  [ '[', '{', '"', 'a', '"', ':', '[', '1', ',', '2', ']', '}',
    ',', '{', '"', 'b', '"', ':', '3', '}', ']' ]

/-- C6: on the spec's nested payload the extractor returns index 20 — the
final `]` of the 21-character string — and in general, starting at a `[`, it
returns `start + k` where `k` is the first offset at which the scan's depth
counter returns to zero on a `]`, or `-1` when the depth never returns to
zero. -/
theorem findMatchingBracket_spec :
    (findMatchingBracket nestedPayload 0 = 20 ∧ nestedPayload.length = 21 ∧
     nestedPayload.getD 20 padChar = ']') ∧
    (∀ (s : List Char) (start : Nat), start < s.length →
      s.getD start padChar = '[' →
      ((findMatchingBracket s start = -1 ↔ ∀ k, ¬ RetCond (s.drop start) 0 k) ∧
       (∀ j : Nat, findMatchingBracket s start = (j : Int) →
          start ≤ j ∧ RetCond (s.drop start) 0 (j - start) ∧
          ∀ m, m < j - start → ¬ RetCond (s.drop start) 0 m))) := by
  refine ⟨⟨by rfl, by rfl, by rfl⟩, ?_⟩
  intro s start hlen hget
  have hfmb : findMatchingBracket s start = fmbLoop (s.drop start) 0 start := by
    unfold findMatchingBracket
    rw [if_neg (by omega), if_pos hget]
  rcases fmbLoop_spec (s.drop start) 0 start with ⟨h1, h2⟩ | ⟨k, h1, h2, h3⟩
  · constructor
    · rw [hfmb, h1]; exact ⟨fun _ => h2, fun _ => rfl⟩
    · intro j hj
      rw [hfmb, h1] at hj
      exact absurd hj.symm (by omega)
  · constructor
    · rw [hfmb, h1]
      constructor
      · intro habs; exact absurd habs (by omega)
      · intro hall; exact absurd h2 (hall k)
    · intro j hj
      rw [hfmb, h1] at hj
      have hjk : j = start + k := by omega
      subst hjk
      refine ⟨by omega, ?_, ?_⟩
      · simpa using h2
      · intro m hm; exact h3 m (by omega)

/-- Witness for C6: for the two-character string `[]`, starting at index 0 the
scan's first return-to-zero offset is 1, where the `]` sits. -/
theorem findMatchingBracket_spec_witness :
    RetCond (([ '[', ']' ] : List Char).drop 0) 0 (1 - 0) :=
  ((findMatchingBracket_spec.2 [ '[', ']' ] 0 (by decide) (by decide)).2 1 (by rfl)).2.1

/-! ## C10: fail-fast batch validation and rationale-carrying errors -/

lemma validateDecisionsFrom_cons (accountEquity : ℚ) (bl al : Int) (i : Nat)
    (d : Decision) (rest : List Decision) :
    validateDecisionsFrom accountEquity bl al i (d :: rest) =
      match validateDecision d accountEquity bl al with
      | Except.error e => Except.error (i + 1, e)
      | Except.ok _ => validateDecisionsFrom accountEquity bl al (i + 1) rest := rfl

lemma validateDecisionsFrom_append (accountEquity : ℚ) (bl al : Int)
    (pre : List Decision) : ∀ (i : Nat) (rest : List Decision),
    (∀ d ∈ pre, validateDecision d accountEquity bl al = Except.ok ()) →
    validateDecisionsFrom accountEquity bl al i (pre ++ rest) =
      validateDecisionsFrom accountEquity bl al (i + pre.length) rest := by
  induction pre with
  | nil => intro i rest _; simp [List.nil_append]
  | cons d t ih =>
    intro i rest hpre
    have hd : validateDecision d accountEquity bl al = Except.ok () :=
      hpre d (List.mem_cons_self d t)
    rw [List.cons_append, validateDecisionsFrom_cons, hd,
        ih (i + 1) rest (fun x hx => hpre x (List.mem_cons_of_mem d hx))]
    have hn : i + (d :: t).length = i + 1 + t.length := by
      simp [List.length_cons]; omega
    rw [hn]

/-- C10: batch validation is fail-fast — when every record before position
`|pre|` validates and the next record fails with error `e`, the whole batch
(whatever records follow) fails with the 1-based ordinal `|pre| + 1` and `e` —
and every fatal parse failure (extraction, decode, or validation) carries the
extracted rationale text. -/
theorem validateDecisions_failfast_and_rationale :
    (∀ (accountEquity : ℚ) (bl al : Int) (pre : List Decision) (d : Decision)
        (rest : List Decision) (e : ValidationError),
      (∀ d2 ∈ pre, validateDecision d2 accountEquity bl al = Except.ok ()) →
      validateDecision d accountEquity bl al = Except.error e →
      validateDecisions (pre ++ d :: rest) accountEquity bl al =
        Except.error (pre.length + 1, e)) ∧
    (∀ (decode : List Char → Except String (List Decision)) (response : List Char)
        (accountEquity : ℚ) (bl al : Int) (f : ParseFailure),
      parseFullDecisionResponse decode response accountEquity bl al =
        Except.error f →
      f.cot = extractCoTTrace response) := by
  constructor
  · intro accountEquity bl al pre d rest e hpre hd
    unfold validateDecisions
    rw [validateDecisionsFrom_append accountEquity bl al pre 0 (d :: rest) hpre,
        validateDecisionsFrom_cons, hd]
    simp
  · intro decode response accountEquity bl al f h
    unfold parseFullDecisionResponse at h
    split at h
    · injection h with h2
      rw [← h2]
      rfl
    · split at h
      · injection h with h2
        rw [← h2]
        rfl
      · exact absurd h (by simp)

/-- A `wait` record (always valid). -/
def waitExample : Decision :=
  { symbol := "", action := "wait", reasoning := "r", leverage := 0,
    positionSizeUSD := 0, stopLoss := 0, takeProfitLevels := [],
    trailingStopPct := none, checklistPassed := none, riskRewardRatio := none,
    signalType := "", oiSignal := "", oiAdjustment := "",
    newStopLoss := none, closePercentage := none }

/-- A record with an unrecognized action (always invalid). -/
def badActionExample : Decision :=
  { symbol := "", action := "foo", reasoning := "r", leverage := 0,
    positionSizeUSD := 0, stopLoss := 0, takeProfitLevels := [],
    trailingStopPct := none, checklistPassed := none, riskRewardRatio := none,
    signalType := "", oiSignal := "", oiAdjustment := "",
    newStopLoss := none, closePercentage := none }

/-- Witness for C10: a concrete two-record batch fails at the 1-based ordinal
2, and a concrete decode failure carries the extracted rationale. -/
theorem validateDecisions_failfast_and_rationale_witness :
    validateDecisions [ waitExample, badActionExample ] 1000 5 5 =
      Except.error (2, ValidationError.invalidAction "foo") ∧
    (ParseFailure.extractFail (ExtractErr.jsonDecode "bad" [ '[', ']' ]) [ 'x' ]).cot =
      extractCoTTrace [ 'x', '[', ']' ] := by
  constructor
  · exact validateDecisions_failfast_and_rationale.1 1000 5 5 [ waitExample ]
      badActionExample [] (ValidationError.invalidAction "foo")
      (fun d2 hd2 => by rw [List.mem_singleton.mp hd2]; rfl) rfl
  · exact validateDecisions_failfast_and_rationale.2 (fun _ => Except.error "bad")
      [ 'x', '[', ']' ] 1000 5 5
      (ParseFailure.extractFail (ExtractErr.jsonDecode "bad" [ '[', ']' ]) [ 'x' ]) rfl

/-! ## C8 and C9: liquidity filter of the context assembler -/

lemma liquidityStep_fst (get : String → Option MarketData) (positions : List String)
    (a sym : String) (data : MarketData)
    (h : liquidityStep get positions a = some (sym, data)) : a = sym := by
  unfold liquidityStep at h
  split at h
  · exact absurd h (by simp)
  · split at h
    · injection h with h2
      exact congrArg Prod.fst h2
    · split at h
      · split at h
        · exact absurd h (by simp)
        · injection h with h2
          exact congrArg Prod.fst h2
      · injection h with h2
        exact congrArg Prod.fst h2

lemma mem_fetchMarketDataForContext (get : String → Option MarketData)
    (positions candidates : List String) (sym : String) (data : MarketData) :
    (sym, data) ∈ fetchMarketDataForContext get positions candidates ↔
      sym ∈ positions ++ candidates ∧
      liquidityStep get positions sym = some (sym, data) := by
  unfold fetchMarketDataForContext calculateMaxCandidates
  rw [List.take_length, List.mem_filterMap]
  constructor
  · rintro ⟨a, ha, hstep⟩
    have := liquidityStep_fst get positions a sym data hstep
    subst this
    exact ⟨List.mem_dedup.mp ha, hstep⟩
  · rintro ⟨hmem, hstep⟩
    exact ⟨sym, List.mem_dedup.mpr hmem, hstep⟩

lemma contains_eq_false_of_not_mem {l : List String} {a : String} (h : a ∉ l) :
    l.contains a = false := by
  rw [← Bool.not_eq_true]
  intro hc
  exact h (List.elem_iff.mp hc)

/-- C8: a non-position symbol fetched with open-interest data and a positive
price lands in the snapshot map iff its notional open interest (latest
open-interest quantity × current price) is at least 15,000,000; a symbol with
an existing open position is always retained once its fetch succeeds. -/
theorem fetchMarketData_liquidity_floor :
    (∀ (get : String → Option MarketData) (positions candidates : List String)
        (sym : String) (data : MarketData) (oi : OpenInterest),
      sym ∈ candidates → get sym = some data → sym ∉ positions →
      data.openInterest = some oi → 0 < data.currentPrice →
      ((sym, data) ∈ fetchMarketDataForContext get positions candidates ↔
        15000000 ≤ oi.latest * data.currentPrice)) ∧
    (∀ (get : String → Option MarketData) (positions candidates : List String)
        (sym : String) (data : MarketData),
      sym ∈ positions → get sym = some data →
      (sym, data) ∈ fetchMarketDataForContext get positions candidates) := by
  constructor
  · intro get positions candidates sym data oi hc hget hpos hoi hp
    rw [mem_fetchMarketDataForContext]
    have hsym : sym ∈ positions ++ candidates := List.mem_append_right positions hc
    have hcont : positions.contains sym = false := contains_eq_false_of_not_mem hpos
    simp only [liquidityStep, hget, hoi]
    rw [if_pos ⟨hcont, hp⟩]
    constructor
    · rintro ⟨-, hstep⟩
      by_cases hlt : oi.latest * data.currentPrice / 1000000 < 15
      · rw [if_pos hlt] at hstep
        exact absurd hstep (by simp)
      · rw [not_lt, le_div_iff (by norm_num)] at hlt
        linarith
    · intro hge
      refine ⟨hsym, ?_⟩
      rw [if_neg ?_]
      rw [not_lt, le_div_iff (by norm_num)]
      linarith
  · intro get positions candidates sym data hpos hget
    rw [mem_fetchMarketDataForContext]
    refine ⟨List.mem_append_left candidates hpos, ?_⟩
    have hcont : positions.contains sym = true := List.elem_iff.mpr hpos
    cases hoi : data.openInterest with
    | none => simp only [liquidityStep, hget, hoi]
    | some oi =>
      simp only [liquidityStep, hget, hoi]
      rw [if_neg ?_]
      rintro ⟨hfalse, -⟩
      rw [hcont] at hfalse
      exact absurd hfalse (by simp)

/-- C9: a non-position symbol whose fetched data has no open-interest record,
or a non-positive current price, bypasses the liquidity filter and is always
included in the snapshot map. -/
theorem fetchMarketData_filter_bypass
    (get : String → Option MarketData) (positions candidates : List String)
    (sym : String) (data : MarketData)
    (hc : sym ∈ candidates) (hget : get sym = some data) (hpos : sym ∉ positions)
    (h : data.openInterest = none ∨ data.currentPrice ≤ 0) :
    (sym, data) ∈ fetchMarketDataForContext get positions candidates := by
  rw [mem_fetchMarketDataForContext]
  refine ⟨List.mem_append_right positions hc, ?_⟩
  rcases h with h | h
  · simp only [liquidityStep, hget, h]
  · cases hoi : data.openInterest with
    | none => simp only [liquidityStep, hget, hoi]
    | some oi =>
      simp only [liquidityStep, hget, hoi]
      rw [if_neg ?_]
      rintro ⟨-, hp⟩
      exact absurd hp (not_lt.mpr h)

/-- Market data at the 15M notional boundary (price 1, open interest 15,000,000). -/
def oiRichData : MarketData :=
  { currentPrice := 1, openInterest := some { latest := 15000000 } }

/-- Market data just below the 15M notional boundary. -/
def oiPoorData : MarketData :=
  { currentPrice := 1, openInterest := some { latest := 14999999 } }

/-- Market data for an existing position far below the liquidity floor. -/
def thinPositionData : MarketData :=
  { currentPrice := 1, openInterest := some { latest := 1 } }

/-- A concrete fetch function for the liquidity-filter witnesses. -/
def sampleGet : String → Option MarketData := fun sym =>
  if sym = "AAAUSDT" then some oiRichData
  else if sym = "BBBUSDT" then some oiPoorData
  else if sym = "POSUSDT" then some thinPositionData
  else none

/-- Witness for C8: exactly 15,000,000 notional is retained, 14,999,999 is
excluded, and an existing-position symbol far below the floor is retained. -/
theorem fetchMarketData_liquidity_floor_witness :
    ("AAAUSDT", oiRichData) ∈
      fetchMarketDataForContext sampleGet [ "POSUSDT" ] [ "AAAUSDT", "BBBUSDT" ] ∧
    ("BBBUSDT", oiPoorData) ∉
      fetchMarketDataForContext sampleGet [ "POSUSDT" ] [ "AAAUSDT", "BBBUSDT" ] ∧
    ("POSUSDT", thinPositionData) ∈
      fetchMarketDataForContext sampleGet [ "POSUSDT" ] [ "AAAUSDT", "BBBUSDT" ] := by
  refine ⟨?_, ?_, ?_⟩
  · exact (fetchMarketData_liquidity_floor.1 sampleGet [ "POSUSDT" ]
      [ "AAAUSDT", "BBBUSDT" ] "AAAUSDT" oiRichData { latest := 15000000 }
      (by decide) rfl (by decide) rfl (by norm_num [oiRichData])).mpr
      (by norm_num [oiRichData])
  · intro hmem
    exact absurd ((fetchMarketData_liquidity_floor.1 sampleGet [ "POSUSDT" ]
      [ "AAAUSDT", "BBBUSDT" ] "BBBUSDT" oiPoorData { latest := 14999999 }
      (by decide) rfl (by decide) rfl (by norm_num [oiPoorData])).mp hmem)
      (by norm_num [oiPoorData])
  · exact fetchMarketData_liquidity_floor.2 sampleGet [ "POSUSDT" ]
      [ "AAAUSDT", "BBBUSDT" ] "POSUSDT" thinPositionData (by decide) rfl

/-- Market data with no open-interest record at all. -/
def noOIData : MarketData := { currentPrice := 5, openInterest := none }

/-- A concrete fetch function for the filter-bypass witness. -/
def sampleGetNoOI : String → Option MarketData := fun sym =>
  if sym = "CCCUSDT" then some noOIData else none

/-- Witness for C9: a non-position symbol without open-interest data is
included even though its notional open interest cannot be established. -/
theorem fetchMarketData_filter_bypass_witness :
    ("CCCUSDT", noOIData) ∈
      fetchMarketDataForContext sampleGetNoOI [] [ "CCCUSDT" ] :=
  fetchMarketData_filter_bypass sampleGetNoOI [] [ "CCCUSDT" ] "CCCUSDT" noOIData
    (by decide) rfl (by decide) (Or.inl rfl)

/-! ## Validator helper lemmas -/

lemma firstNonPosTP_none_iff : ∀ (l : List ℚ) (i : Nat),
    firstNonPosTP l i = none ↔ ∀ tp ∈ l, 0 < tp := by
  intro l
  induction l with
  | nil => intro i; simp [firstNonPosTP]
  | cons tp t ih =>
    intro i
    unfold firstNonPosTP
    by_cases h : tp ≤ 0
    · rw [if_pos h]
      constructor
      · intro habs; exact absurd habs (by simp)
      · intro hall
        exact absurd (hall tp (List.mem_cons_self tp t)) (not_lt.mpr h)
    · rw [if_neg h, ih (i + 1)]
      simp [List.forall_mem_cons, not_le.mp h]

lemma validActions_of_open (d : Decision)
    (hact : d.action = "open_long" ∨ d.action = "open_short") :
    validActions d.action = true := by
  rcases hact with h | h <;> simp [validActions, h]

lemma validateDecision_open_eq (d : Decision) (accountEquity : ℚ) (bl al : Int)
    (hact : d.action = "open_long" ∨ d.action = "open_short")
    (h1 : 0 < d.leverage) (h2 : d.leverage ≤ maxLeverageFor d.symbol bl al)
    (h3 : 0 < d.positionSizeUSD)
    (h4 : d.positionSizeUSD ≤ maxPositionValueFor d.symbol accountEquity +
      maxPositionValueFor d.symbol accountEquity * 0.01)
    (h5 : 0 < d.stopLoss) (h6 : d.takeProfitLevels.length = 3)
    (h7 : ∀ tp ∈ d.takeProfitLevels, 0 < tp) :
    validateDecision d accountEquity bl al =
      match checkOrdering d with
      | Except.error e => Except.error e
      | Except.ok _ => checkRiskReward d := by
  unfold validateDecision
  rw [if_pos (validActions_of_open d hact), if_pos hact,
    if_neg (by omega), if_neg (not_le.mpr h3), if_neg (not_lt.mpr h4),
    if_neg (not_le.mpr h5), if_neg (not_ne_iff.mpr h6),
    (firstNonPosTP_none_iff d.takeProfitLevels 0).mpr h7]

lemma checkOrdering_long_ok_iff (d : Decision) (ha : d.action = "open_long") :
    checkOrdering d = Except.ok () ↔
      (d.stopLoss < tpAt d 0 ∧ tpAt d 0 < tpAt d 1 ∧ tpAt d 1 < tpAt d 2) := by
  unfold checkOrdering
  rw [if_pos ha]
  by_cases h1 : tpAt d 0 ≤ d.stopLoss
  · rw [if_pos h1]
    constructor
    · intro habs; exact absurd habs (by simp)
    · rintro ⟨ha1, -⟩; exact absurd h1 (not_le.mpr ha1)
  · by_cases h2 : tpAt d 1 ≤ tpAt d 0 ∨ tpAt d 2 ≤ tpAt d 1
    · rw [if_neg h1, if_pos h2]
      constructor
      · intro habs; exact absurd habs (by simp)
      · rintro ⟨-, ha2, ha3⟩
        rcases h2 with h2 | h2
        · exact absurd h2 (not_le.mpr ha2)
        · exact absurd h2 (not_le.mpr ha3)
    · rw [if_neg h1, if_neg h2]
      push_neg at h1 h2
      simp [h1, h2.1, h2.2]

lemma checkOrdering_short_ok_iff (d : Decision) (ha : d.action = "open_short") :
    checkOrdering d = Except.ok () ↔
      (tpAt d 0 < d.stopLoss ∧ tpAt d 1 < tpAt d 0 ∧ tpAt d 2 < tpAt d 1) := by
  have hne : ¬ d.action = "open_long" := by rw [ha]; decide
  unfold checkOrdering
  rw [if_neg hne]
  by_cases h1 : d.stopLoss ≤ tpAt d 0
  · rw [if_pos h1]
    constructor
    · intro habs; exact absurd habs (by simp)
    · rintro ⟨ha1, -⟩; exact absurd h1 (not_le.mpr ha1)
  · by_cases h2 : tpAt d 0 ≤ tpAt d 1 ∨ tpAt d 1 ≤ tpAt d 2
    · rw [if_neg h1, if_pos h2]
      constructor
      · intro habs; exact absurd habs (by simp)
      · rintro ⟨-, ha2, ha3⟩
        rcases h2 with h2 | h2
        · exact absurd h2 (not_le.mpr ha2)
        · exact absurd h2 (not_le.mpr ha3)
    · rw [if_neg h1, if_neg h2]
      push_neg at h1 h2
      simp [h1, h2.1, h2.2]

lemma riskRewardRatioOf_long (d : Decision) (ha : d.action = "open_long")
    (hs : 0 < d.stopLoss) (ht : d.stopLoss < tpAt d 0) :
    riskRewardRatioOf d = 4 := by
  have hts : 0 < tpAt d 0 - d.stopLoss := sub_pos.mpr ht
  have hentry : entryPriceOf d = d.stopLoss + (tpAt d 0 - d.stopLoss) * 0.2 := by
    unfold entryPriceOf; rw [if_pos ha]
  have hepos : 0 < entryPriceOf d := by
    rw [hentry]; nlinarith
  have hrisk : riskPercentOf d = (tpAt d 0 - d.stopLoss) * 0.2 / entryPriceOf d * 100 := by
    unfold riskPercentOf
    rw [if_pos ha]
    rw [show entryPriceOf d - d.stopLoss = (tpAt d 0 - d.stopLoss) * 0.2 by
      rw [hentry]; ring]
  have hreward : rewardPercentOf d = (tpAt d 0 - d.stopLoss) * 0.8 / entryPriceOf d * 100 := by
    unfold rewardPercentOf
    rw [if_pos ha]
    rw [show tpAt d 0 - entryPriceOf d = (tpAt d 0 - d.stopLoss) * 0.8 by
      rw [hentry]; ring]
  have hrpos : 0 < riskPercentOf d := by
    rw [hrisk]
    have : 0 < (tpAt d 0 - d.stopLoss) * 0.2 / entryPriceOf d :=
      div_pos (by nlinarith) hepos
    nlinarith
  unfold riskRewardRatioOf
  rw [if_pos hrpos, hrisk, hreward]
  have hene : entryPriceOf d ≠ 0 := ne_of_gt hepos
  have htne : tpAt d 0 - d.stopLoss ≠ 0 := ne_of_gt hts
  field_simp
  ring

lemma riskRewardRatioOf_short (d : Decision) (ha : d.action = "open_short")
    (hs : 0 < tpAt d 0) (ht : tpAt d 0 < d.stopLoss) :
    riskRewardRatioOf d = 4 := by
  have hne : ¬ d.action = "open_long" := by rw [ha]; decide
  have hts : 0 < d.stopLoss - tpAt d 0 := sub_pos.mpr ht
  have hentry : entryPriceOf d = d.stopLoss - (d.stopLoss - tpAt d 0) * 0.2 := by
    unfold entryPriceOf; rw [if_neg hne]
  have hepos : 0 < entryPriceOf d := by
    rw [hentry]; nlinarith
  have hrisk : riskPercentOf d = (d.stopLoss - tpAt d 0) * 0.2 / entryPriceOf d * 100 := by
    unfold riskPercentOf
    rw [if_neg hne]
    rw [show d.stopLoss - entryPriceOf d = (d.stopLoss - tpAt d 0) * 0.2 by
      rw [hentry]; ring]
  have hreward : rewardPercentOf d = (d.stopLoss - tpAt d 0) * 0.8 / entryPriceOf d * 100 := by
    unfold rewardPercentOf
    rw [if_neg hne]
    rw [show entryPriceOf d - tpAt d 0 = (d.stopLoss - tpAt d 0) * 0.8 by
      rw [hentry]; ring]
  have hrpos : 0 < riskPercentOf d := by
    rw [hrisk]
    have : 0 < (d.stopLoss - tpAt d 0) * 0.2 / entryPriceOf d :=
      div_pos (by nlinarith) hepos
    nlinarith
  unfold riskRewardRatioOf
  rw [if_pos hrpos, hrisk, hreward]
  have hene : entryPriceOf d ≠ 0 := ne_of_gt hepos
  have htne : d.stopLoss - tpAt d 0 ≠ 0 := ne_of_gt hts
  field_simp
  ring

lemma tpAt_zero_mem (d : Decision) (h : d.takeProfitLevels.length = 3) :
    tpAt d 0 ∈ d.takeProfitLevels := by
  unfold tpAt
  rcases List.length_eq_three.mp h with ⟨a, b, c, habc⟩
  rw [habc]
  simp

lemma validateDecision_ok_conditions (d : Decision) (accountEquity : ℚ) (bl al : Int)
    (hopen : d.action = "open_long" ∨ d.action = "open_short")
    (h : validateDecision d accountEquity bl al = Except.ok ()) :
    0 < d.leverage ∧ d.leverage ≤ maxLeverageFor d.symbol bl al ∧
    0 < d.positionSizeUSD ∧
    d.positionSizeUSD ≤ maxPositionValueFor d.symbol accountEquity +
      maxPositionValueFor d.symbol accountEquity * 0.01 ∧
    0 < d.stopLoss ∧ d.takeProfitLevels.length = 3 ∧
    (∀ tp ∈ d.takeProfitLevels, 0 < tp) ∧
    checkOrdering d = Except.ok () := by
  unfold validateDecision at h
  rw [if_pos (validActions_of_open d hopen), if_pos hopen] at h
  by_cases hc1 : d.leverage ≤ 0 ∨ maxLeverageFor d.symbol bl al < d.leverage
  · rw [if_pos hc1] at h; exact absurd h (by simp)
  rw [if_neg hc1] at h
  by_cases hc2 : d.positionSizeUSD ≤ 0
  · rw [if_pos hc2] at h; exact absurd h (by simp)
  rw [if_neg hc2] at h
  by_cases hc3 : maxPositionValueFor d.symbol accountEquity +
      maxPositionValueFor d.symbol accountEquity * 0.01 < d.positionSizeUSD
  · rw [if_pos hc3] at h; exact absurd h (by simp)
  rw [if_neg hc3] at h
  by_cases hc4 : d.stopLoss ≤ 0
  · rw [if_pos hc4] at h; exact absurd h (by simp)
  rw [if_neg hc4] at h
  by_cases hc5 : d.takeProfitLevels.length ≠ 3
  · rw [if_pos hc5] at h; exact absurd h (by simp)
  rw [if_neg hc5] at h
  cases hfp : firstNonPosTP d.takeProfitLevels 0 with
  | some itp => rw [hfp] at h; exact absurd h (by simp)
  | none =>
    rw [hfp] at h
    cases hco : checkOrdering d with
    | error e => rw [hco] at h; exact absurd h (by simp)
    | ok u =>
      push_neg at hc1 hc2 hc4
      exact ⟨hc1.1, hc1.2, hc2, not_lt.mp hc3, hc4, not_ne_iff.mp hc5,
        (firstNonPosTP_none_iff d.takeProfitLevels 0).mp hfp, rfl⟩

lemma checkOrdering_no_riskReward (d : Decision) (r rp wp sl tp : ℚ) :
    checkOrdering d ≠ Except.error (ValidationError.riskReward r rp wp sl tp) := by
  unfold checkOrdering
  split_ifs <;> simp

/-! ## C2: acceptance criterion and ordering errors for open records -/

/-- C2: an `open_long` record is accepted iff the leverage bound, position-size
positivity, notional cap with tolerance, stop positivity, three positive
take-profit prices and the strict chain stop < tp0 < tp1 < tp2 all hold, and —
once the earlier checks pass — a violation tp1 ≤ tp0 or tp2 ≤ tp1 yields the
ordering error; symmetrically an `open_short` record requires the strict
descending chain stop > tp0 > tp1 > tp2. -/
theorem validateDecision_open_accept_iff :
    (∀ (d : Decision) (accountEquity : ℚ) (bl al : Int), d.action = "open_long" →
      (validateDecision d accountEquity bl al = Except.ok () ↔
        (0 < d.leverage ∧ d.leverage ≤ maxLeverageFor d.symbol bl al ∧
         0 < d.positionSizeUSD ∧
         d.positionSizeUSD ≤ maxPositionValueFor d.symbol accountEquity +
           maxPositionValueFor d.symbol accountEquity * 0.01 ∧
         0 < d.stopLoss ∧ d.takeProfitLevels.length = 3 ∧
         (∀ tp ∈ d.takeProfitLevels, 0 < tp) ∧
         d.stopLoss < tpAt d 0 ∧ tpAt d 0 < tpAt d 1 ∧ tpAt d 1 < tpAt d 2))) ∧
    (∀ (d : Decision) (accountEquity : ℚ) (bl al : Int), d.action = "open_long" →
      0 < d.leverage → d.leverage ≤ maxLeverageFor d.symbol bl al →
      0 < d.positionSizeUSD →
      d.positionSizeUSD ≤ maxPositionValueFor d.symbol accountEquity +
        maxPositionValueFor d.symbol accountEquity * 0.01 →
      0 < d.stopLoss → d.takeProfitLevels.length = 3 →
      (∀ tp ∈ d.takeProfitLevels, 0 < tp) → d.stopLoss < tpAt d 0 →
      (tpAt d 1 ≤ tpAt d 0 ∨ tpAt d 2 ≤ tpAt d 1) →
      validateDecision d accountEquity bl al =
        Except.error (ValidationError.orderingTp true (tpAt d 0) (tpAt d 1) (tpAt d 2))) ∧
    (∀ (d : Decision) (accountEquity : ℚ) (bl al : Int), d.action = "open_short" →
      (validateDecision d accountEquity bl al = Except.ok () ↔
        (0 < d.leverage ∧ d.leverage ≤ maxLeverageFor d.symbol bl al ∧
         0 < d.positionSizeUSD ∧
         d.positionSizeUSD ≤ maxPositionValueFor d.symbol accountEquity +
           maxPositionValueFor d.symbol accountEquity * 0.01 ∧
         0 < d.stopLoss ∧ d.takeProfitLevels.length = 3 ∧
         (∀ tp ∈ d.takeProfitLevels, 0 < tp) ∧
         tpAt d 0 < d.stopLoss ∧ tpAt d 1 < tpAt d 0 ∧ tpAt d 2 < tpAt d 1))) ∧
    (∀ (d : Decision) (accountEquity : ℚ) (bl al : Int), d.action = "open_short" →
      0 < d.leverage → d.leverage ≤ maxLeverageFor d.symbol bl al →
      0 < d.positionSizeUSD →
      d.positionSizeUSD ≤ maxPositionValueFor d.symbol accountEquity +
        maxPositionValueFor d.symbol accountEquity * 0.01 →
      0 < d.stopLoss → d.takeProfitLevels.length = 3 →
      (∀ tp ∈ d.takeProfitLevels, 0 < tp) → tpAt d 0 < d.stopLoss →
      (tpAt d 0 ≤ tpAt d 1 ∨ tpAt d 1 ≤ tpAt d 2) →
      validateDecision d accountEquity bl al =
        Except.error (ValidationError.orderingTp false (tpAt d 0) (tpAt d 1) (tpAt d 2))) := by
  refine ⟨?_, ?_, ?_, ?_⟩
  · intro d accountEquity bl al ha
    constructor
    · intro h
      obtain ⟨h1, h2, h3, h4, h5, h6, h7, hco⟩ :=
        validateDecision_ok_conditions d accountEquity bl al (Or.inl ha) h
      obtain ⟨h8, h9, h10⟩ := (checkOrdering_long_ok_iff d ha).mp hco
      exact ⟨h1, h2, h3, h4, h5, h6, h7, h8, h9, h10⟩
    · rintro ⟨h1, h2, h3, h4, h5, h6, h7, h8, h9, h10⟩
      rw [validateDecision_open_eq d accountEquity bl al (Or.inl ha) h1 h2 h3 h4 h5 h6 h7,
        (checkOrdering_long_ok_iff d ha).mpr ⟨h8, h9, h10⟩]
      show checkRiskReward d = Except.ok ()
      unfold checkRiskReward
      rw [riskRewardRatioOf_long d ha h5 h8]
      norm_num
  · intro d accountEquity bl al ha h1 h2 h3 h4 h5 h6 h7 h8 hviol
    rw [validateDecision_open_eq d accountEquity bl al (Or.inl ha) h1 h2 h3 h4 h5 h6 h7]
    have hco : checkOrdering d = Except.error
        (ValidationError.orderingTp true (tpAt d 0) (tpAt d 1) (tpAt d 2)) := by
      unfold checkOrdering
      rw [if_pos ha, if_neg (not_le.mpr h8), if_pos hviol]
    rw [hco]
  · intro d accountEquity bl al ha
    constructor
    · intro h
      obtain ⟨h1, h2, h3, h4, h5, h6, h7, hco⟩ :=
        validateDecision_ok_conditions d accountEquity bl al (Or.inr ha) h
      obtain ⟨h8, h9, h10⟩ := (checkOrdering_short_ok_iff d ha).mp hco
      exact ⟨h1, h2, h3, h4, h5, h6, h7, h8, h9, h10⟩
    · rintro ⟨h1, h2, h3, h4, h5, h6, h7, h8, h9, h10⟩
      rw [validateDecision_open_eq d accountEquity bl al (Or.inr ha) h1 h2 h3 h4 h5 h6 h7,
        (checkOrdering_short_ok_iff d ha).mpr ⟨h8, h9, h10⟩]
      show checkRiskReward d = Except.ok ()
      unfold checkRiskReward
      rw [riskRewardRatioOf_short d ha (h7 (tpAt d 0) (tpAt_zero_mem d h6)) h8]
      norm_num
  · intro d accountEquity bl al ha h1 h2 h3 h4 h5 h6 h7 h8 hviol
    rw [validateDecision_open_eq d accountEquity bl al (Or.inr ha) h1 h2 h3 h4 h5 h6 h7]
    have hne : ¬ d.action = "open_long" := by rw [ha]; decide
    have hco : checkOrdering d = Except.error
        (ValidationError.orderingTp false (tpAt d 0) (tpAt d 1) (tpAt d 2)) := by
      unfold checkOrdering
      rw [if_neg hne, if_neg (not_le.mpr h8), if_pos hviol]
    rw [hco]

/-! ## C3 and C4: the risk:reward gate -/

/-- C3: for an open record that has passed every earlier check, the validator
rejects with the risk:reward error iff the computed ratio (from the entry
price interpolated 20% of the way from stop toward the first take-profit) is
below 2.0, and accepts iff the ratio is at least 2.0 — so a ratio of exactly
2.0 would be accepted and any ratio below 2 (such as 1.999) rejected. -/
theorem validateDecision_riskReward_gate (d : Decision) (accountEquity : ℚ)
    (bl al : Int)
    (hopen : d.action = "open_long" ∨ d.action = "open_short")
    (h1 : 0 < d.leverage) (h2 : d.leverage ≤ maxLeverageFor d.symbol bl al)
    (h3 : 0 < d.positionSizeUSD)
    (h4 : d.positionSizeUSD ≤ maxPositionValueFor d.symbol accountEquity +
      maxPositionValueFor d.symbol accountEquity * 0.01)
    (h5 : 0 < d.stopLoss) (h6 : d.takeProfitLevels.length = 3)
    (h7 : ∀ tp ∈ d.takeProfitLevels, 0 < tp)
    (hco : checkOrdering d = Except.ok ()) :
    (validateDecision d accountEquity bl al =
       Except.error (ValidationError.riskReward (riskRewardRatioOf d)
         (riskPercentOf d) (rewardPercentOf d) d.stopLoss (tpAt d 0)) ↔
       riskRewardRatioOf d < 2) ∧
    (validateDecision d accountEquity bl al = Except.ok () ↔
       2 ≤ riskRewardRatioOf d) := by
  rw [validateDecision_open_eq d accountEquity bl al hopen h1 h2 h3 h4 h5 h6 h7, hco]
  have hmatch : (match (Except.ok () : Except ValidationError Unit) with
      | Except.error e => Except.error e
      | Except.ok _ => checkRiskReward d) = checkRiskReward d := rfl
  rw [hmatch]
  unfold checkRiskReward
  by_cases hr : riskRewardRatioOf d < 2
  · rw [if_pos hr]
    constructor
    · simp [hr]
    · constructor
      · intro habs; exact absurd habs (by simp)
      · intro hge; exact absurd hr (not_lt.mpr hge)
  · rw [if_neg hr]
    constructor
    · constructor
      · intro habs; exact absurd habs (by simp)
      · intro hlt; exact absurd hlt hr
    · simp [not_lt.mp hr]

/-- C4: on any open record that passed the stop/take-profit positivity and
ordering checks the computed risk:reward ratio is identically 4 in exact
arithmetic, so the risk:reward rejection branch is unreachable: no input at
all can make `validateDecision` return the risk:reward error. -/
theorem riskReward_branch_unreachable :
    (∀ d : Decision, d.action = "open_long" → 0 < d.stopLoss →
      checkOrdering d = Except.ok () → riskRewardRatioOf d = 4) ∧
    (∀ d : Decision, d.action = "open_short" → d.takeProfitLevels.length = 3 →
      (∀ tp ∈ d.takeProfitLevels, 0 < tp) →
      checkOrdering d = Except.ok () → riskRewardRatioOf d = 4) ∧
    (∀ (d : Decision) (accountEquity : ℚ) (bl al : Int) (r rp wp sl tp : ℚ),
      validateDecision d accountEquity bl al ≠
        Except.error (ValidationError.riskReward r rp wp sl tp)) := by
  have hlong : ∀ d : Decision, d.action = "open_long" → 0 < d.stopLoss →
      checkOrdering d = Except.ok () → riskRewardRatioOf d = 4 := fun d ha hs hco =>
    riskRewardRatioOf_long d ha hs ((checkOrdering_long_ok_iff d ha).mp hco).1
  have hshort : ∀ d : Decision, d.action = "open_short" →
      d.takeProfitLevels.length = 3 → (∀ tp ∈ d.takeProfitLevels, 0 < tp) →
      checkOrdering d = Except.ok () → riskRewardRatioOf d = 4 := fun d ha h6 h7 hco =>
    riskRewardRatioOf_short d ha (h7 (tpAt d 0) (tpAt_zero_mem d h6))
      ((checkOrdering_short_ok_iff d ha).mp hco).1
  refine ⟨hlong, hshort, ?_⟩
  intro d accountEquity bl al r rp wp sl tp heq
  unfold validateDecision at heq
  by_cases hval : validActions d.action = true
  case neg => rw [if_neg hval] at heq; exact absurd heq (by simp)
  rw [if_pos hval] at heq
  by_cases hopen : d.action = "open_long" ∨ d.action = "open_short"
  case neg => rw [if_neg hopen] at heq; exact absurd heq (by simp)
  rw [if_pos hopen] at heq
  by_cases hc1 : d.leverage ≤ 0 ∨ maxLeverageFor d.symbol bl al < d.leverage
  · rw [if_pos hc1] at heq; exact absurd heq (by simp)
  rw [if_neg hc1] at heq
  by_cases hc2 : d.positionSizeUSD ≤ 0
  · rw [if_pos hc2] at heq; exact absurd heq (by simp)
  rw [if_neg hc2] at heq
  by_cases hc3 : maxPositionValueFor d.symbol accountEquity +
      maxPositionValueFor d.symbol accountEquity * 0.01 < d.positionSizeUSD
  · rw [if_pos hc3] at heq; exact absurd heq (by simp)
  rw [if_neg hc3] at heq
  by_cases hc4 : d.stopLoss ≤ 0
  · rw [if_pos hc4] at heq; exact absurd heq (by simp)
  rw [if_neg hc4] at heq
  by_cases hc5 : d.takeProfitLevels.length ≠ 3
  · rw [if_pos hc5] at heq; exact absurd heq (by simp)
  rw [if_neg hc5] at heq
  cases hfp : firstNonPosTP d.takeProfitLevels 0 with
  | some itp => rw [hfp] at heq; exact absurd heq (by simp)
  | none =>
    rw [hfp] at heq
    cases hco : checkOrdering d with
    | error e =>
      rw [hco] at heq
      have heq2 : (Except.error e : Except ValidationError Unit) =
          Except.error (ValidationError.riskReward r rp wp sl tp) := heq
      injection heq2 with he
      exact checkOrdering_no_riskReward d r rp wp sl tp (by rw [hco, he])
    | ok u =>
      rw [hco] at heq
      have heq2 : checkRiskReward d =
          Except.error (ValidationError.riskReward r rp wp sl tp) := heq
      have h5 : 0 < d.stopLoss := not_le.mp hc4
      have h6 : d.takeProfitLevels.length = 3 := not_ne_iff.mp hc5
      have h7 := (firstNonPosTP_none_iff d.takeProfitLevels 0).mp hfp
      have hco' : checkOrdering d = Except.ok () := by rw [hco]
      have hr4 : riskRewardRatioOf d = 4 := by
        rcases hopen with ha | ha
        · exact hlong d ha h5 hco'
        · exact hshort d ha h6 h7 hco'
      unfold checkRiskReward at heq2
      rw [hr4] at heq2
      rw [if_neg (by norm_num)] at heq2
      exact absurd heq2 (by simp)

/-- The spec's accepted scenario: ETHUSDT open_long, leverage 3, 500 USD,
stop 3735, take-profits [3966, 4081, 4197]. -/
def ethScenario : Decision :=
  { symbol := "ETHUSDT", action := "open_long", reasoning := "x", leverage := 3,
    positionSizeUSD := 500, stopLoss := 3735, takeProfitLevels := [ 3966, 4081, 4197 ],
    trailingStopPct := none, checklistPassed := none, riskRewardRatio := none,
    signalType := "", oiSignal := "", oiAdjustment := "",
    newStopLoss := none, closePercentage := none }

/-- The spec's rejected scenario: same record with unordered take-profits. -/
def ethBadOrdering : Decision :=
  { symbol := "ETHUSDT", action := "open_long", reasoning := "x", leverage := 3,
    positionSizeUSD := 500, stopLoss := 3735, takeProfitLevels := [ 3966, 3900, 4197 ],
    trailingStopPct := none, checklistPassed := none, riskRewardRatio := none,
    signalType := "", oiSignal := "", oiAdjustment := "",
    newStopLoss := none, closePercentage := none }

/-- A valid open_short record on an altcoin. -/
def solShortScenario : Decision :=
  { symbol := "SOLUSDT", action := "open_short", reasoning := "x", leverage := 3,
    positionSizeUSD := 500, stopLoss := 110, takeProfitLevels := [ 100, 90, 80 ],
    trailingStopPct := none, checklistPassed := none, riskRewardRatio := none,
    signalType := "", oiSignal := "", oiAdjustment := "",
    newStopLoss := none, closePercentage := none }

/-- Witness for C2: the spec's concrete scenario is accepted and its
unordered variant is rejected with the ordering error. -/
theorem validateDecision_open_accept_iff_witness :
    validateDecision ethScenario 5000 5 5 = Except.ok () ∧
    validateDecision ethBadOrdering 5000 5 5 =
      Except.error (ValidationError.orderingTp true 3966 3900 4197) := by
  constructor
  · exact (validateDecision_open_accept_iff.1 ethScenario 5000 5 5 rfl).mpr
      ⟨by decide, by decide, by show (0 : ℚ) < 500; norm_num,
       by show (500 : ℚ) ≤ 5000 * 10 + 5000 * 10 * 0.01; norm_num,
       by show (0 : ℚ) < 3735; norm_num, rfl,
       by intro tp htp; fin_cases htp <;> norm_num,
       by show (3735 : ℚ) < 3966; norm_num,
       by show (3966 : ℚ) < 4081; norm_num,
       by show (4081 : ℚ) < 4197; norm_num⟩
  · exact validateDecision_open_accept_iff.2.1 ethBadOrdering 5000 5 5 rfl
      (by decide) (by decide) (by show (0 : ℚ) < 500; norm_num)
      (by show (500 : ℚ) ≤ 5000 * 10 + 5000 * 10 * 0.01; norm_num)
      (by show (0 : ℚ) < 3735; norm_num) rfl
      (by intro tp htp; fin_cases htp <;> norm_num)
      (by show (3735 : ℚ) < 3966; norm_num)
      (Or.inl (by show (3900 : ℚ) ≤ 3966; norm_num))

/-- Witness for C3: a concrete open_short record that passed every earlier
check is accepted because its computed ratio (4) is at least 2. -/
theorem validateDecision_riskReward_gate_witness :
    validateDecision solShortScenario 5000 5 5 = Except.ok () := by
  have hco : checkOrdering solShortScenario = Except.ok () :=
    (checkOrdering_short_ok_iff solShortScenario rfl).mpr
      ⟨by show (100 : ℚ) < 110; norm_num,
       by show (90 : ℚ) < 100; norm_num,
       by show (80 : ℚ) < 90; norm_num⟩
  refine (validateDecision_riskReward_gate solShortScenario 5000 5 5 (Or.inr rfl)
    (by decide) (by decide) (by show (0 : ℚ) < 500; norm_num)
    (by show (500 : ℚ) ≤ 5000 * 1.5 + 5000 * 1.5 * 0.01; norm_num)
    (by show (0 : ℚ) < 110; norm_num) rfl
    (by intro tp htp; fin_cases htp <;> norm_num) hco).2.mpr ?_
  rw [riskRewardRatioOf_short solShortScenario rfl
    (by show (0 : ℚ) < 100; norm_num) (by show (100 : ℚ) < 110; norm_num)]
  norm_num

/-- Witness for C4: the spec's concrete long scenario has ratio exactly 4. -/
theorem riskReward_branch_unreachable_witness :
    riskRewardRatioOf ethScenario = 4 :=
  riskReward_branch_unreachable.1 ethScenario rfl (by show (0 : ℚ) < 3735; norm_num)
    ((checkOrdering_long_ok_iff ethScenario rfl).mpr
      ⟨by show (3735 : ℚ) < 3966; norm_num,
       by show (3966 : ℚ) < 4081; norm_num,
       by show (4081 : ℚ) < 4197; norm_num⟩)
